import Mathlib

/-!
# Verification of the Phish_NotPhish URL feature extractor and web front end

Shallow embedding of `src/feature_extract.py` and `src/app.py`.

Python strings are modelled as `List Char` (sequences of code points);
numeric feature values as `ℚ` (the source mixes Python ints and floats;
every claim under scrutiny is about exact counts, guards and ratios, not
about binary floating-point rounding).  Case mapping (`str.lower`) and
digit tests (`str.isdigit`) are modelled for ASCII text via `Char.toLower`
and `Char.isDigit`.

`urllib.parse.urlparse` is modelled for inputs that start with `http://`
or `https://` (the source guarantees this by prepending `http://`):
the netloc is the text after the scheme's `//` up to the first `/`, `?`
or `#`; the remainder is split on the first `#` (fragment) and then the
first `?` (query); `urlparse` additionally strips `;params` from the last
path segment.  CPython's `urlsplit` raises `ValueError` ("Invalid IPv6
URL") when the netloc contains `[` without `]` or vice versa; this
validation (present in every supported CPython version) is modelled by
an `Except` error.  Version-specific extra validation of bracketed hosts
is not modelled; theorems about parse success therefore assume the
netloc is free of square brackets or bracket-matched.
-/

/-- Python `str.lower` (ASCII model). -/
def lowerL (s : List Char) : List Char := s.map Char.toLower

/-- Greedy left-to-right scan counting non-overlapping occurrences of a
nonempty `needle`; after a match, `skip` suppresses matching inside the
just-matched text (structural recursion on the haystack so that concrete
evaluations reduce definitionally). -/
def countSubGo (needle : List Char) : List Char → Nat → Nat
  | [], _ => 0
  | a :: t, skip =>
    if skip > 0 then countSubGo needle t (skip - 1)
    else if needle.isPrefixOf (a :: t) then
      1 + countSubGo needle t (needle.length - 1)
    else countSubGo needle t 0

/-- Python `str.count(sub)`: number of non-overlapping occurrences of
`needle` in the string, scanning left to right (for the empty needle,
Python returns `len + 1`). -/
def countSub (needle : List Char) (s : List Char) : Nat :=
  if needle = [] then s.length + 1 else countSubGo needle s 0

/-- Python `str.split(sep)` for a one-character separator: splits on every
occurrence, keeping empty parts; the result is never the empty list. -/
def pySplit (c : Char) : List Char → List (List Char)
  | [] => [[]]
  | a :: t =>
    if a = c then [] :: pySplit c t
    else
      match pySplit c t with
      | [] => [[a]]
      | h :: r => (a :: h) :: r

/-- Python `int(s)` on a string of decimal digits. -/
def toNatDigits (s : List Char) : Nat :=
  s.foldl (fun n c => 10 * n + (c.toNat - '0'.toNat)) 0

/-- Python `s.isdigit()` for ASCII text: nonempty and all decimal digits. -/
def pyIsDigits (s : List Char) : Bool :=
  !s.isEmpty && s.all Char.isDigit

/-- Python `str.strip()` (ASCII whitespace model). -/
def pyStrip (s : List Char) : List Char :=
  let ws : Char → Bool := fun c =>
    c = ' ' || c = '\t' || c = '\n' || c = '\r' || c = '\x0b' || c = '\x0c'
  ((s.dropWhile ws).reverse.dropWhile ws).reverse

/-- `feature_extract.py` line 9: the fixed set of known URL-shortener hosts. -/
def _SHORTENERS : List (List Char) :=
  ["bit.ly".data, "tinyurl.com".data, "t.co".data, "goo.gl".data, "ow.ly".data,
   "buff.ly".data, "is.gd".data, "tiny.cc".data, "lc.chat".data,
   "rebrand.ly".data, "shorturl.at".data, "su.pr".data, "trib.al".data]

/-- `feature_extract.py` line 95: the suspicious keywords. -/
def suspiciousWords : List (List Char) :=
  ["login".data, "signin".data, "secure".data, "verify".data, "update".data,
   "account".data, "confirm".data, "bank".data, "paypal".data, "ebay".data]

/-- `feature_extract.py` lines 17-23, `_has_port`: the port number parsed
from the text after the last `:` of the netloc when that text is all
digits, else 0. -/
def _has_port (netloc : List Char) : Nat :=
  if netloc.contains ':' then
    let parts := pySplit ':' netloc
    let last := parts.getLastD []
    if pyIsDigits last then toNatDigits last else 0
  else 0

/-- The string handed to `urlparse` at `feature_extract.py` line 34: the
input itself when it starts with `http://` or `https://`, otherwise the
input with `http://` prepended. -/
def withScheme (url : List Char) : List Char :=
  if "http://".data.isPrefixOf url || "https://".data.isPrefixOf url then url
  else "http://".data ++ url

/-- Not one of `urlsplit`'s netloc delimiters `/`, `?`, `#`. -/
def notDelim (c : Char) : Bool := c ≠ '/' && c ≠ '?' && c ≠ '#'

/-- The text after the scheme's `//` in the string handed to `urlparse`
(which always starts with `http://` or `https://`). -/
def schemeBody (url : List Char) : List Char :=
  let s := withScheme url
  if "https://".data.isPrefixOf s then s.drop 8 else s.drop 7

/-- The netloc `urlparse` extracts at `feature_extract.py` line 34: the text
after the scheme's `//` up to the first `/`, `?` or `#`. -/
def rawNetloc (url : List Char) : List Char :=
  (schemeBody url).takeWhile notDelim

/-- CPython `urlsplit`'s "Invalid IPv6 URL" condition: the netloc contains
`[` without `]` or `]` without `[`. -/
def ipv6Mismatch (netloc : List Char) : Bool :=
  (netloc.contains '[' && !netloc.contains ']') ||
  (netloc.contains ']' && !netloc.contains '[')

/-- CPython `urlparse`'s `;params` stripping: cut the last path segment at
the first `;` at or after the last `/` (at the first `;` anywhere when the
path has no `/`). -/
def pySplitParams (p : List Char) : List Char :=
  let rev := p.reverse
  (rev.dropWhile (· ≠ '/')).reverse ++
    ((rev.takeWhile (· ≠ '/')).reverse.takeWhile (· ≠ ';'))

/-- The components of `urlparse`'s result that the source reads. -/
structure Parsed where
  netloc : List Char
  path : List Char
  query : List Char
  deriving Repr, DecidableEq

/-- `urllib.parse.urlparse` on a string that starts with `http://` or
`https://` (see the module docstring); `.error` models the `ValueError`
CPython raises for a bracket-mismatched netloc. -/
def pyUrlparse (url : List Char) : Except String Parsed :=
  let netloc := rawNetloc url
  if ipv6Mismatch netloc then .error "Invalid IPv6 URL"
  else
    let rest := (schemeBody url).dropWhile notDelim
    let beforeFrag := rest.takeWhile (· ≠ '#')
    let rawPath := beforeFrag.takeWhile (· ≠ '?')
    let query := (beforeFrag.dropWhile (· ≠ '?')).drop 1
    .ok ⟨netloc, pySplitParams rawPath, query⟩

/-- Python's substring test `needle in hay`: `needle` occurs contiguously
somewhere in `hay`. -/
def containsSub (needle : List Char) : List Char → Bool
  | [] => needle.isEmpty
  | a :: t => needle.isPrefixOf (a :: t) || containsSub needle t

/-- Whether `suf` is a suffix of `s`. -/
def isSuffix (suf s : List Char) : Bool := suf.reverse.isPrefixOf s.reverse

/-- `'a' ≤ c ≤ 'z'`, the character class `[a-z]` of the source's regexes. -/
def isLowerAlpha (c : Char) : Bool := 'a' ≤ c && c ≤ 'z'

/-- The regex anchor alternative `($|/)`: end of string, or a `/` next. -/
def endOrSlash : List Char → Bool
  | [] => true
  | c :: _ => c = '/'

/-- Whether the regex `[a-z]{2,4}($|/)` matches at the start of `t`
(the text right after a `.`), `feature_extract.py` line 77. -/
def tldAfterDot : List Char → Bool
  | a :: b :: rest =>
    isLowerAlpha a && isLowerAlpha b &&
      (endOrSlash rest ||
        match rest with
        | c :: rest2 =>
          isLowerAlpha c && (endOrSlash rest2 ||
            match rest2 with
            | d :: rest3 => isLowerAlpha d && endOrSlash rest3
            | [] => false)
        | [] => false)
  | _ => false

/-- `re.search(r'\.[a-z]\x7b2,4\x7d($|/)', s)` as a Boolean. -/
def hasTldInPath : List Char → Bool
  | [] => false
  | c :: t => (c = '.' && tldAfterDot t) || hasTldInPath t

/-- `re.search(r'\.[a-z]\x7b2,4\x7d', s)` as a Boolean: a `.` followed by at
least two lowercase letters. -/
def hasTldInSub : List Char → Bool
  | [] => false
  | c :: t =>
    (c = '.' &&
      match t with
      | a :: b :: _ => isLowerAlpha a && isLowerAlpha b
      | _ => false) || hasTldInSub t

/-- `re.search(r'\.(php|asp|aspx|jsp|html|cfm|cgi)$', s)` as a Boolean:
the string ends with one of the seven extensions. -/
def pathExtension (p : List Char) : Bool :=
  [".php".data, ".asp".data, ".aspx".data, ".jsp".data,
   ".html".data, ".cfm".data, ".cgi".data].any (fun suf => isSuffix suf p)

/-- `feature_extract.py` lines 40-107: the feature dict built (in insertion
order) from the original string `whole = url` and the parsed components.
Variable names follow the source (`host`, `path`, `digits`, ...). -/
def featureList (url : List Char) (parsed : Parsed) : List (String × ℚ) :=
  let host := lowerL parsed.netloc
  let path := parsed.path
  let whole := url
  let wholeLower := lowerL whole
  let pathLower := lowerL path
  let length_url : ℕ := whole.length
  let length_hostname : ℕ := host.length
  let digits : ℕ := whole.countP Char.isDigit
  let digits_host : ℕ := host.countP Char.isDigit
  let vowels : ℕ := host.countP (fun c => "aeiou".data.contains c)
  let nb_subdomains : ℕ := host.count '.'
  [("length_url", (length_url : ℚ)),
   ("length_hostname", (length_hostname : ℚ)),
   ("nb_dots", (whole.count '.' : ℚ)),
   ("nb_hyphens", (whole.count '-' : ℚ)),
   ("nb_at", (whole.count '@' : ℚ)),
   ("nb_qm", (whole.count '?' : ℚ)),
   ("nb_and", (whole.count '&' : ℚ)),
   ("nb_or", (whole.count '|' : ℚ)),
   ("nb_eq", (whole.count '=' : ℚ)),
   ("nb_underscore", (whole.count '_' : ℚ)),
   ("nb_tilde", (whole.count '~' : ℚ)),
   ("nb_percent", (whole.count '%' : ℚ)),
   ("nb_slash", (whole.count '/' : ℚ)),
   ("nb_star", (whole.count '*' : ℚ)),
   ("nb_colon", (whole.count ':' : ℚ)),
   ("nb_com", (countSub ".com".data wholeLower : ℚ)),
   ("nb_www", (countSub "www".data wholeLower : ℚ)),
   ("nb_dslash", ((countSub "//".data whole : ℤ) - 1 : ℤ)),
   ("http_in_path", if containsSub "http".data pathLower then 1 else 0),
   ("https_token",
     if containsSub "https".data host || containsSub "https".data wholeLower then 1 else 0),
   ("ratio_digits_url",
     if (length_url : ℚ) > 0 then (digits : ℚ) / (length_url : ℚ) else 0),
   ("ratio_digits_host",
     if (length_hostname : ℚ) > 0 then (digits_host : ℚ) / (length_hostname : ℚ) else 0),
   ("punycode",
     if "xn--".data.isPrefixOf host || containsSub "xn--".data host then 1 else 0),
   ("port", (_has_port host : ℚ)),
   ("tld_in_path", if hasTldInPath pathLower then 1 else 0),
   ("tld_in_subdomain", if hasTldInSub (host.takeWhile (· ≠ ':')) then 1 else 0),
   ("nb_subdomains", (nb_subdomains : ℚ)),
   ("prefix_suffix", if host.contains '-' then 1 else 0),
   ("random_domain",
     if host.length > 15 ∧
        ((vowels : ℚ) / (host.length : ℚ) < 1/5 ∨
         (digits_host : ℚ) / (host.length : ℚ) > 3/10) then 1 else 0),
   ("shortening_service",
     if _SHORTENERS.contains (host.takeWhile (· ≠ ':')) then 1 else 0),
   ("path_extension", if pathExtension pathLower then 1 else 0),
   ("phish_hints",
     (suspiciousWords.countP (fun w => containsSub w wholeLower) : ℚ)),
   ("abnormal_subdomain", if nb_subdomains > 3 then 1 else 0),
   ("domain_in_brand", 0),
   ("brand_in_subdomain", 0),
   ("brand_in_path", 0)]

/-- `feature_extract.py` lines 25-107, `compute_url_superset_features`:
parse the (scheme-completed) URL and build the feature dict; an `.error`
models the `ValueError` that `urlparse` raises. -/
def compute_url_superset_features (url : List Char) : Except String (List (String × ℚ)) :=
  match pyUrlparse url with
  | .error e => .error e
  | .ok parsed => .ok (featureList url parsed)

/-- The fixed key set of the extractor's output, in insertion order. -/
def featureKeys : List String :=
  ["length_url", "length_hostname", "nb_dots", "nb_hyphens", "nb_at", "nb_qm",
   "nb_and", "nb_or", "nb_eq", "nb_underscore", "nb_tilde", "nb_percent",
   "nb_slash", "nb_star", "nb_colon", "nb_com", "nb_www", "nb_dslash",
   "http_in_path", "https_token", "ratio_digits_url", "ratio_digits_host",
   "punycode", "port", "tld_in_path", "tld_in_subdomain", "nb_subdomains",
   "prefix_suffix", "random_domain", "shortening_service", "path_extension",
   "phish_hints", "abnormal_subdomain", "domain_in_brand",
   "brand_in_subdomain", "brand_in_path"]

/-- Python dict lookup on the feature dict (keys are unique by
construction); 0 for a missing key. -/
def fget (fs : List (String × ℚ)) (k : String) : ℚ :=
  ((fs.find? (fun p => p.1 == k)).map Prod.snd).getD 0

/-- The parsed content of the metadata JSON document (`robust_meta.json`):
`features` is the ordered feature-name list, `medians` the per-feature
fallback values (a JSON object, modelled as an association list with
unique keys). -/
structure Meta where
  features : List String
  medians : List (String × ℚ)
  deriving Repr, DecidableEq

/-- Python `medians.get(feat, 0.0)`: the recorded median, or 0.0 when no
median is recorded for that name. -/
def medGet (medians : List (String × ℚ)) (k : String) : ℚ :=
  ((medians.find? (fun p => p.1 == k)).map Prod.snd).getD 0

/-- `feature_extract.py` lines 109-136, `extract_features_for_model`.
The source re-opens and re-parses `meta_path` on every call (lines
118-124); `metaFile` is therefore the state of that file at call time:
`none` when the file is missing or malformed (the call then raises
`FileNotFoundError`), `some meta` its parsed content otherwise.  On
success the result models the single-row DataFrame with columns
`meta.features` in order. -/
def extract_features_for_model (url : List Char) (metaFile : Option Meta) :
    Except String (List (String × ℚ)) :=
  match metaFile with
  | none => .error "Meta file not found or bad format. Run training block first."
  | some meta =>
    match compute_url_superset_features url with
    | .error e => .error e
    | .ok sup =>
      .ok (meta.features.map (fun feat =>
        match sup.find? (fun p => p.1 == feat) with
        | some p => (feat, p.2)
        | none => (feat, medGet meta.medians feat)))

/-- Modelled from the spec: the classifier artifact (`robust_rf.pkl`) is
not part of the repository; per the spec it is an opaque pre-trained
binary classifier whose `predict` returns the class label (1 = phishing,
0 = legitimate), here a Boolean-valued function of the feature row
(`true` = label 1). -/
def ClassifierModel : Type := List (String × ℚ) → Bool

/-- The process-wide state `app.py` builds at startup (lines 13-16): the
loaded classifier and the metadata document parsed once from
`robust_meta.json` (bound to the globals `meta` / `MODEL_FEATURES`). -/
structure AppState where
  startupMeta : Meta
  clf : ClassifierModel

/-- The responses of `POST /predict` that the claims are about: an error
body `\x7b"error": msg\x7d` with its status, or a success body with
`url`, `prediction` and `meaning` (the optional `probabilities` field and
the HTML rendering of form submissions are not modelled). -/
inductive Resp where
  | err (status : Nat) (msg : String)
  | success (status : Nat) (url : List Char) (prediction : Nat) (meaning : String)
  deriving Repr, DecidableEq

/-- `app.py` lines 33-57, the `POST /predict` handler.  `fsMeta` is the
state of the metadata file at request time (read by
`extract_features_for_model`, which the handler calls at line 45);
`reqUrl` is the request's `url` value (`none` when absent, in which case
`data.get("url", "")` yields `""`).  The catch-all `except` at line 56
turns any exception raised while handling (a missing/malformed metadata
file, a `ValueError` from `urlparse`) into a 500 response. -/
def predict (st : AppState) (fsMeta : Option Meta) (reqUrl : Option (List Char)) : Resp :=
  let url := pyStrip (reqUrl.getD [])
  if url.isEmpty then .err 400 "no url provided"
  else
    match extract_features_for_model url fsMeta with
    | .error _ => .err 500 "exception"
    | .ok row =>
      let pred : Nat := if st.clf row then 1 else 0
      .success 200 url pred (if pred = 1 then "phishing" else "legitimate")

/-! ## Helper lemmas about the embedding -/

theorem pySplit_ne_nil (c : Char) (s : List Char) : pySplit c s ≠ [] := by
  cases s with
  | nil => simp [pySplit]
  | cons a t =>
    unfold pySplit
    by_cases h : a = c
    · simp [h]
    · simp only [h, if_false]
      cases pySplit c t <;> simp

theorem compute_ok {url : List Char} {fs : List (String × ℚ)}
    (h : compute_url_superset_features url = .ok fs) :
    ∃ p, pyUrlparse url = .ok p ∧ fs = featureList url p := by
  unfold compute_url_superset_features at h
  cases hp : pyUrlparse url with
  | error e => rw [hp] at h; cases h
  | ok p => rw [hp] at h; cases h; exact ⟨p, rfl, rfl⟩

theorem pyUrlparse_netloc {url : List Char} {p : Parsed}
    (h : pyUrlparse url = .ok p) : p.netloc = rawNetloc url := by
  unfold pyUrlparse at h
  simp only [] at h
  split at h
  · cases h
  · cases h; rfl

/-- Evaluating the dict lookups on the feature list (the keys are literal,
so each lookup reduces definitionally). -/
theorem fget_ratio_digits_url (url : List Char) (p : Parsed) :
    fget (featureList url p) "ratio_digits_url" =
      if ((url.length : ℚ)) > 0 then ((url.countP Char.isDigit : ℚ)) / (url.length : ℚ)
      else 0 := rfl

theorem fget_ratio_digits_host (url : List Char) (p : Parsed) :
    fget (featureList url p) "ratio_digits_host" =
      if (((lowerL p.netloc).length : ℚ)) > 0 then
        (((lowerL p.netloc).countP Char.isDigit : ℚ)) / ((lowerL p.netloc).length : ℚ)
      else 0 := rfl

theorem pyUrlparse_ok_of_no_mismatch (url : List Char)
    (h : ipv6Mismatch (rawNetloc url) = false) : ∃ p, pyUrlparse url = .ok p := by
  unfold pyUrlparse
  simp only [h, Bool.false_eq_true, if_false]
  exact ⟨_, rfl⟩

/-- Keys of the feature dict are the fixed list, whatever the input. -/
theorem featureList_keys (url : List Char) (p : Parsed) :
    (featureList url p).map Prod.fst = featureKeys := rfl

/-- The guarded-ratio shape used for both digit ratios. -/
theorem ratioAux (a b : ℕ) (hab : a ≤ b) :
    0 ≤ (if ((b : ℚ)) > 0 then ((a : ℚ)) / (b : ℚ) else 0) ∧
    (if ((b : ℚ)) > 0 then ((a : ℚ)) / (b : ℚ) else 0) ≤ 1 ∧
    (b = 0 → (if ((b : ℚ)) > 0 then ((a : ℚ)) / (b : ℚ) else 0) = 0) := by
  refine ⟨?_, ?_, ?_⟩
  · split
    · positivity
    · exact le_rfl
  · split
    · rename_i hb
      rw [div_le_one hb]
      exact_mod_cast hab
    · norm_num
  · intro hb
    subst hb
    norm_num

/-- C2 (amended): for every input string whose parsed netloc does not
trip `urlparse`'s bracket-mismatch `ValueError`,
`compute_url_superset_features` returns a mapping whose keys are exactly
the full fixed feature set, each mapped to a (rational-valued) number;
the two ratio divisions are guarded so a zero denominator yields 0.0
rather than a division. -/
theorem compute_url_superset_features_total_keys :
    ∀ url : List Char, ipv6Mismatch (rawNetloc url) = false →
      ∃ fs, compute_url_superset_features url = .ok fs ∧
        fs.map Prod.fst = featureKeys := by
  intro url h
  obtain ⟨p, hp⟩ := pyUrlparse_ok_of_no_mismatch url h
  refine ⟨featureList url p, ?_, featureList_keys url p⟩
  unfold compute_url_superset_features
  rw [hp]

/-- C2 (counterexample): the claim promises termination without exception
for every input string, but on the input `"["` the source's call
`urlparse("http://" + "[")` raises `ValueError: Invalid IPv6 URL`
(netloc `[` with no closing bracket), so
`compute_url_superset_features("[")` raises instead of returning. -/
theorem compute_url_superset_features_raises_on_bracket :
    compute_url_superset_features "[".data = .error "Invalid IPv6 URL" := rfl

/-- C2 witness: the amended theorem applied at `"example.com"`. -/
theorem compute_url_superset_features_total_keys_witness :
    ipv6Mismatch (rawNetloc "example.com".data) = false ∧
      (∃ fs, compute_url_superset_features "example.com".data = .ok fs ∧
        fs.map Prod.fst = featureKeys) :=
  ⟨rfl, compute_url_superset_features_total_keys "example.com".data rfl⟩

/-- C6: both digit ratios always lie in `[0,1]`; `ratio_digits_url` is 0
when the URL is empty and `ratio_digits_host` is 0 when the parsed host
is empty. -/
theorem ratio_digits_in_unit_interval :
    ∀ (url : List Char) (fs : List (String × ℚ)),
      compute_url_superset_features url = .ok fs →
      (0 ≤ fget fs "ratio_digits_url" ∧ fget fs "ratio_digits_url" ≤ 1 ∧
        (url = [] → fget fs "ratio_digits_url" = 0)) ∧
      (0 ≤ fget fs "ratio_digits_host" ∧ fget fs "ratio_digits_host" ≤ 1 ∧
        (rawNetloc url = [] → fget fs "ratio_digits_host" = 0)) := by
  intro url fs h
  obtain ⟨p, hp, rfl⟩ := compute_ok h
  have hn := pyUrlparse_netloc hp
  rw [fget_ratio_digits_url, fget_ratio_digits_host, hn]
  obtain ⟨u1, u2, u3⟩ :=
    ratioAux (url.countP Char.isDigit) url.length (List.countP_le_length _)
  obtain ⟨h1, h2, h3⟩ :=
    ratioAux ((lowerL (rawNetloc url)).countP Char.isDigit)
      (lowerL (rawNetloc url)).length (List.countP_le_length _)
  refine ⟨⟨u1, u2, ?_⟩, ⟨h1, h2, ?_⟩⟩
  · intro h0
    exact u3 (by simp [h0])
  · intro h0
    exact h3 (by simp [h0, lowerL])

/-- C6 witness: the theorem applied at `"a1"`. -/
theorem ratio_digits_in_unit_interval_witness :
    compute_url_superset_features "a1".data =
      .ok (featureList "a1".data ⟨"a1".data, [], []⟩) ∧
    ((0 ≤ fget (featureList "a1".data ⟨"a1".data, [], []⟩) "ratio_digits_url" ∧
      fget (featureList "a1".data ⟨"a1".data, [], []⟩) "ratio_digits_url" ≤ 1 ∧
      ("a1".data = [] →
        fget (featureList "a1".data ⟨"a1".data, [], []⟩) "ratio_digits_url" = 0)) ∧
     (0 ≤ fget (featureList "a1".data ⟨"a1".data, [], []⟩) "ratio_digits_host" ∧
      fget (featureList "a1".data ⟨"a1".data, [], []⟩) "ratio_digits_host" ≤ 1 ∧
      (rawNetloc "a1".data = [] →
        fget (featureList "a1".data ⟨"a1".data, [], []⟩) "ratio_digits_host" = 0))) :=
  ⟨rfl, ratio_digits_in_unit_interval "a1".data _ rfl⟩

theorem fget_nb_dslash (url : List Char) (p : Parsed) :
    fget (featureList url p) "nb_dslash" =
      (((countSub "//".data url : ℤ) - 1 : ℤ) : ℚ) := rfl

theorem fget_phish_hints (url : List Char) (p : Parsed) :
    fget (featureList url p) "phish_hints" =
      ((suspiciousWords.countP (fun w => containsSub w (lowerL url))) : ℚ) := rfl

/-- C1: the record assembled by `extract_features_for_model` has exactly
the metadata's feature names, in order; a feature present in the
extractor's superset takes its extracted value, and a feature absent from
the superset takes the metadata's median (or 0.0 when no median is
recorded, which is how `medGet` reads `medians.get(feat, 0.0)`). -/
theorem extract_features_for_model_spec :
    ∀ (url : List Char) (meta : Meta) (sup : List (String × ℚ)),
      compute_url_superset_features url = .ok sup →
      ∃ row, extract_features_for_model url (some meta) = .ok row ∧
        row.map Prod.fst = meta.features ∧
        ∀ i (hi : i < meta.features.length),
          row[i]? = some (meta.features[i],
            match sup.find? (fun q => q.1 == meta.features[i]) with
            | some q => q.2
            | none => medGet meta.medians meta.features[i]) := by
  intro url meta sup h
  unfold extract_features_for_model
  rw [h]
  refine ⟨_, rfl, ?_, ?_⟩
  · rw [List.map_map]
    conv_rhs => rw [← List.map_id meta.features]
    apply List.map_congr_left
    intro feat _
    simp only [Function.comp_apply, id]
    cases sup.find? (fun q => q.1 == feat) <;> rfl
  · intro i hi
    rw [List.getElem?_map, List.getElem?_eq_getElem hi]
    simp only [Option.map_some']
    cases sup.find? (fun q => q.1 == meta.features[i]) <;> rfl

/-- C1 witness: the theorem applied at `"a"` with a metadata document
declaring one derivable feature, one feature with a median, and one more
derivable feature. -/
theorem extract_features_for_model_spec_witness :
    compute_url_superset_features "a".data =
      .ok (featureList "a".data ⟨"a".data, [], []⟩) ∧
    (∃ row,
      extract_features_for_model "a".data
          (some ⟨["length_url", "mystery", "nb_dots"], [("mystery", 7)]⟩) = .ok row ∧
      row.map Prod.fst =
        (Meta.mk ["length_url", "mystery", "nb_dots"] [("mystery", 7)]).features ∧
      ∀ i (hi : i <
          (Meta.mk ["length_url", "mystery", "nb_dots"] [("mystery", 7)]).features.length),
        row[i]? = some
          ((Meta.mk ["length_url", "mystery", "nb_dots"] [("mystery", 7)]).features[i],
            match (featureList "a".data ⟨"a".data, [], []⟩).find?
                (fun q => q.1 ==
                  (Meta.mk ["length_url", "mystery", "nb_dots"] [("mystery", 7)]).features[i]) with
            | some q => q.2
            | none => medGet
                (Meta.mk ["length_url", "mystery", "nb_dots"] [("mystery", 7)]).medians
                (Meta.mk ["length_url", "mystery", "nb_dots"] [("mystery", 7)]).features[i])) :=
  ⟨rfl, extract_features_for_model_spec "a".data
    ⟨["length_url", "mystery", "nb_dots"], [("mystery", 7)]⟩ _ rfl⟩

/-- The claim's reading of `phish_hints`, kept separate from the source
embedding for comparison: the TOTAL number of suspicious-keyword
occurrences across the URL text, where a keyword occurring twice
contributes 2. -/
def phishHintsTotalOccurrences (url : List Char) : ℕ :=
  (suspiciousWords.map (fun w => countSub w (lowerL url))).sum

/-- C4 (counterexample): on `"loginlogin"` the keyword `login` occurs
twice, so the claim's total-occurrence count is 2, but the source's
`sum(1 for w in suspicious_words if w in whole.lower())` contributes at
most 1 per keyword and yields 1. -/
theorem phish_hints_not_total_occurrences :
    ∃ fs, compute_url_superset_features "loginlogin".data = .ok fs ∧
      fget fs "phish_hints" = 1 ∧
      phishHintsTotalOccurrences "loginlogin".data = 2 ∧
      fget fs "phish_hints" ≠ (phishHintsTotalOccurrences "loginlogin".data : ℚ) :=
  ⟨_, rfl, rfl, rfl, by decide⟩

/-- C4 (amended): `phish_hints` equals the number of DISTINCT suspicious
keywords that occur (case-insensitively) somewhere in the URL text; each
keyword contributes at most 1 no matter how often it occurs. -/
theorem phish_hints_counts_distinct_keywords :
    ∀ (url : List Char) (fs : List (String × ℚ)),
      compute_url_superset_features url = .ok fs →
      fget fs "phish_hints" =
        ((suspiciousWords.filter (fun w => containsSub w (lowerL url))).length : ℚ) := by
  intro url fs h
  obtain ⟨p, hp, rfl⟩ := compute_ok h
  rw [fget_phish_hints]
  norm_cast
  exact List.countP_eq_length_filter _ _

/-- C4 witness: the amended theorem applied at `"loginlogin"`, where the
only keyword occurring is `login` and the feature is 1. -/
theorem phish_hints_counts_distinct_keywords_witness :
    compute_url_superset_features "loginlogin".data =
      .ok (featureList "loginlogin".data ⟨"loginlogin".data, [], []⟩) ∧
    fget (featureList "loginlogin".data ⟨"loginlogin".data, [], []⟩) "phish_hints" =
      ((suspiciousWords.filter
          (fun w => containsSub w (lowerL "loginlogin".data))).length : ℚ) :=
  ⟨rfl, phish_hints_counts_distinct_keywords "loginlogin".data _ rfl⟩

/-- C7: `nb_dslash` is the count of `//` occurrences in the original URL
text minus 1, with the subtraction applied unconditionally; on
`"example.com"` (no `//` anywhere) it is -1. -/
theorem nb_dslash_unconditional_subtraction :
    (∀ (url : List Char) (fs : List (String × ℚ)),
      compute_url_superset_features url = .ok fs →
      fget fs "nb_dslash" = (((countSub "//".data url : ℤ) - 1 : ℤ) : ℚ)) ∧
    (∃ fs, compute_url_superset_features "example.com".data = .ok fs ∧
      fget fs "nb_dslash" = -1) := by
  constructor
  · intro url fs h
    obtain ⟨p, hp, rfl⟩ := compute_ok h
    exact fget_nb_dslash url p
  · exact ⟨_, rfl, by decide⟩

/-- C7 witness: the universally quantified part applied at `"x//y"`. -/
theorem nb_dslash_unconditional_subtraction_witness :
    compute_url_superset_features "x//y".data =
      .ok (featureList "x//y".data ⟨"x".data, "//y".data, []⟩) ∧
    fget (featureList "x//y".data ⟨"x".data, "//y".data, []⟩) "nb_dslash" =
      (((countSub "//".data "x//y".data : ℤ) - 1 : ℤ) : ℚ) :=
  ⟨rfl, nb_dslash_unconditional_subtraction.1 "x//y".data _ rfl⟩

/-- C8: for an input lacking an `http://`/`https://` prefix, the literal
character/substring count features are computed on the original unmodified
input string (the synthetic prefix is used only for parsing). -/
theorem literal_counts_use_original_string :
    ∀ (url : List Char) (fs : List (String × ℚ)),
      "http://".data.isPrefixOf url = false →
      "https://".data.isPrefixOf url = false →
      compute_url_superset_features url = .ok fs →
      fget fs "length_url" = (url.length : ℚ) ∧
      fget fs "nb_dots" = (url.count '.' : ℚ) ∧
      fget fs "nb_hyphens" = (url.count '-' : ℚ) ∧
      fget fs "nb_at" = (url.count '@' : ℚ) ∧
      fget fs "nb_eq" = (url.count '=' : ℚ) ∧
      fget fs "nb_slash" = (url.count '/' : ℚ) ∧
      fget fs "nb_colon" = (url.count ':' : ℚ) ∧
      fget fs "nb_dslash" = (((countSub "//".data url : ℤ) - 1 : ℤ) : ℚ) := by
  intro url fs _ _ h
  obtain ⟨p, hp, rfl⟩ := compute_ok h
  exact ⟨rfl, rfl, rfl, rfl, rfl, rfl, rfl, rfl⟩

/-- C8 witness: the theorem applied at `"example.com"`. -/
theorem literal_counts_use_original_string_witness :
    "http://".data.isPrefixOf "example.com".data = false ∧
    "https://".data.isPrefixOf "example.com".data = false ∧
    compute_url_superset_features "example.com".data =
      .ok (featureList "example.com".data ⟨"example.com".data, [], []⟩) ∧
    (fget (featureList "example.com".data ⟨"example.com".data, [], []⟩) "length_url" =
        (("example.com".data.length : ℕ) : ℚ) ∧
      fget (featureList "example.com".data ⟨"example.com".data, [], []⟩) "nb_dots" =
        (("example.com".data.count '.' : ℕ) : ℚ) ∧
      fget (featureList "example.com".data ⟨"example.com".data, [], []⟩) "nb_hyphens" =
        (("example.com".data.count '-' : ℕ) : ℚ) ∧
      fget (featureList "example.com".data ⟨"example.com".data, [], []⟩) "nb_at" =
        (("example.com".data.count '@' : ℕ) : ℚ) ∧
      fget (featureList "example.com".data ⟨"example.com".data, [], []⟩) "nb_eq" =
        (("example.com".data.count '=' : ℕ) : ℚ) ∧
      fget (featureList "example.com".data ⟨"example.com".data, [], []⟩) "nb_slash" =
        (("example.com".data.count '/' : ℕ) : ℚ) ∧
      fget (featureList "example.com".data ⟨"example.com".data, [], []⟩) "nb_colon" =
        (("example.com".data.count ':' : ℕ) : ℚ) ∧
      fget (featureList "example.com".data ⟨"example.com".data, [], []⟩) "nb_dslash" =
        (((countSub "//".data "example.com".data : ℤ) - 1 : ℤ) : ℚ)) :=
  ⟨rfl, rfl, rfl,
    literal_counts_use_original_string "example.com".data _ rfl rfl rfl⟩

theorem fget_shortening_service (url : List Char) (p : Parsed) :
    fget (featureList url p) "shortening_service" =
      if _SHORTENERS.contains ((lowerL p.netloc).takeWhile (· ≠ ':')) then 1 else 0 := rfl

theorem fget_port (url : List Char) (p : Parsed) :
    fget (featureList url p) "port" = ((_has_port (lowerL p.netloc) : ℕ) : ℚ) := rfl

/-- C9: `shortening_service` is 1 exactly when the port-stripped
(lower-cased) host is an element of the fixed shortener set; `bit.ly`
gives 1, and both `example.com` and the substring-containing host
`notbit.ly` give 0. -/
theorem shortening_service_exact_match :
    (∀ (url : List Char) (fs : List (String × ℚ)),
      compute_url_superset_features url = .ok fs →
      (fget fs "shortening_service" = 1 ↔
        (lowerL (rawNetloc url)).takeWhile (· ≠ ':') ∈ _SHORTENERS)) ∧
    (∃ fs, compute_url_superset_features "bit.ly".data = .ok fs ∧
      fget fs "shortening_service" = 1) ∧
    (∃ fs, compute_url_superset_features "notbit.ly".data = .ok fs ∧
      fget fs "shortening_service" = 0) ∧
    (∃ fs, compute_url_superset_features "example.com".data = .ok fs ∧
      fget fs "shortening_service" = 0) := by
  refine ⟨?_, ⟨_, rfl, by decide⟩, ⟨_, rfl, by decide⟩, ⟨_, rfl, by decide⟩⟩
  intro url fs h
  obtain ⟨p, hp, rfl⟩ := compute_ok h
  have hn := pyUrlparse_netloc hp
  rw [fget_shortening_service, hn]
  by_cases hc :
      _SHORTENERS.contains ((lowerL (rawNetloc url)).takeWhile (· ≠ ':')) = true
  · rw [if_pos hc]
    exact ⟨fun _ => List.mem_of_elem_eq_true hc, fun _ => rfl⟩
  · rw [if_neg hc]
    constructor
    · intro h0
      exact absurd h0 (by norm_num)
    · intro hm
      exact absurd (List.elem_eq_true_of_mem hm) hc

/-- C9 witness: the iff applied at `"bit.ly"`. -/
theorem shortening_service_exact_match_witness :
    compute_url_superset_features "bit.ly".data =
      .ok (featureList "bit.ly".data ⟨"bit.ly".data, [], []⟩) ∧
    (fget (featureList "bit.ly".data ⟨"bit.ly".data, [], []⟩) "shortening_service" = 1 ↔
      (lowerL (rawNetloc "bit.ly".data)).takeWhile (· ≠ ':') ∈ _SHORTENERS) :=
  ⟨rfl, shortening_service_exact_match.1 "bit.ly".data _ rfl⟩

theorem takeWhile_append_last_false {α} (p : α → Bool) (xs : List α) (y : α)
    (hy : p y = false) : (xs ++ [y]).takeWhile p = xs.takeWhile p := by
  induction xs with
  | nil => simp [List.takeWhile, hy]
  | cons x xs ih =>
    simp only [List.cons_append, List.takeWhile]
    cases p x <;> simp [ih]

theorem takeWhile_append_stopped {α} (p : α → Bool) (xs ys : List α)
    (h : ∃ x ∈ xs, p x = false) : (xs ++ ys).takeWhile p = xs.takeWhile p := by
  induction xs with
  | nil => obtain ⟨x, hx, _⟩ := h; cases hx
  | cons x xs ih =>
    simp only [List.cons_append, List.takeWhile]
    cases hp : p x with
    | false => rfl
    | true =>
      obtain ⟨w, hw, hwf⟩ := h
      rcases List.mem_cons.mp hw with rfl | hw2
      · rw [hp] at hwf; cases hwf
      · simp [ih ⟨w, hw2, hwf⟩]

theorem takeWhile_all {α} (p : α → Bool) (xs : List α)
    (h : ∀ x ∈ xs, p x = true) : xs.takeWhile p = xs := by
  induction xs with
  | nil => rfl
  | cons x xs ih =>
    simp only [List.takeWhile]
    rw [h x (List.mem_cons_self x xs)]
    simp [ih (fun a ha => h a (List.mem_cons_of_mem x ha))]

theorem pySplit_not_mem {c : Char} {s : List Char} (h : c ∉ s) :
    pySplit c s = [s] := by
  induction s with
  | nil => rfl
  | cons a t ih =>
    have ha : ¬(a = c) := fun e => h (e ▸ List.mem_cons_self a t)
    have ht : c ∉ t := fun m => h (List.mem_cons_of_mem a m)
    unfold pySplit
    rw [if_neg ha, ih ht]

theorem length_pySplit (c : Char) (s : List Char) :
    (pySplit c s).length = s.count c + 1 := by
  induction s with
  | nil => rfl
  | cons a t ih =>
    unfold pySplit
    by_cases hac : a = c
    · rw [if_pos hac]
      simp only [List.length_cons, ih, List.count_cons]
      simp [hac]
    · rw [if_neg hac]
      cases hq : pySplit c t with
      | nil => exact absurd hq (pySplit_ne_nil c t)
      | cons hd r =>
        rw [hq] at ih
        simp only [List.length_cons] at ih ⊢
        simp only [List.count_cons]
        have hb : (a == c) = false := by simp [hac]
        simp only [hb, Bool.false_eq_true, if_false]
        omega

theorem getLastD_irrel {α} {r : List α} (h : r ≠ []) (x y : α) :
    r.getLastD x = r.getLastD y := by
  cases r with
  | nil => exact absurd rfl h
  | cons a t => rw [List.getLastD_cons, List.getLastD_cons]

/-- `parts[-1]` of Python's `netloc.split(':')` is the text after the last
`:` (the whole string when there is no `:`). -/
theorem getLastD_pySplit (c : Char) (s : List Char) :
    (pySplit c s).getLastD [] = (s.reverse.takeWhile (· ≠ c)).reverse := by
  induction s with
  | nil => rfl
  | cons a t ih =>
    unfold pySplit
    by_cases hac : a = c
    · rw [if_pos hac, List.getLastD_cons, ih, List.reverse_cons,
        takeWhile_append_last_false _ _ _ (by simp [hac])]
    · rw [if_neg hac]
      by_cases hct : c ∈ t
      · cases hq : pySplit c t with
        | nil => exact absurd hq (pySplit_ne_nil c t)
        | cons hd r =>
          have hlen := length_pySplit c t
          rw [hq] at hlen
          simp only [List.length_cons] at hlen
          have hr : r ≠ [] := by
            intro he
            subst he
            simp only [List.length_nil] at hlen
            have hz : t.count c = 0 := by omega
            exact (List.count_eq_zero.mp hz) hct
          have e1 : ((a :: hd) :: r).getLastD ([] : List Char) =
              (hd :: r).getLastD [] := by
            rw [List.getLastD_cons, List.getLastD_cons]
            exact getLastD_irrel hr _ _
          rw [e1, ← hq, ih, List.reverse_cons,
            takeWhile_append_stopped _ _ _
              ⟨c, List.mem_reverse.mpr hct, by simp⟩]
      · have hall : ∀ x ∈ (a :: t).reverse, (fun b => decide (b ≠ c)) x = true := by
          intro x hx
          rcases List.mem_cons.mp (List.mem_reverse.mp hx) with rfl | hx2
          · simp [hac]
          · simp only [decide_eq_true_eq]
            exact fun e => hct (e ▸ hx2)
        rw [pySplit_not_mem hct, takeWhile_all _ _ hall, List.reverse_reverse]
        rfl

/-- C10: the `port` feature carries the numeric port value itself, not a
0/1 flag: it is the integer parsed from the text after the last `:` of
the netloc when that text is all digits, and 0 when there is no colon or
that text is not a (nonempty) digit string; `example.com:8080` yields
8080, not 1. -/
theorem port_carries_numeric_value :
    (∀ (url : List Char) (fs : List (String × ℚ)),
      compute_url_superset_features url = .ok fs →
      fget fs "port" =
        (if (lowerL (rawNetloc url)).contains ':' then
          (if pyIsDigits (((lowerL (rawNetloc url)).reverse.takeWhile (· ≠ ':')).reverse) then
            ((toNatDigits (((lowerL (rawNetloc url)).reverse.takeWhile (· ≠ ':')).reverse) : ℕ) : ℚ)
          else 0)
        else 0)) ∧
    (∃ fs, compute_url_superset_features "example.com:8080".data = .ok fs ∧
      fget fs "port" = 8080) := by
  constructor
  · intro url fs h
    obtain ⟨p, hp, rfl⟩ := compute_ok h
    rw [fget_port, pyUrlparse_netloc hp]
    unfold _has_port
    simp only []
    rw [getLastD_pySplit]
    split_ifs <;> simp
  · exact ⟨_, rfl, by decide⟩

/-- C10 witness: the universally quantified part applied at `"x:22"`. -/
theorem port_carries_numeric_value_witness :
    compute_url_superset_features "x:22".data =
      .ok (featureList "x:22".data ⟨"x:22".data, [], []⟩) ∧
    fget (featureList "x:22".data ⟨"x:22".data, [], []⟩) "port" =
      (if (lowerL (rawNetloc "x:22".data)).contains ':' then
        (if pyIsDigits (((lowerL (rawNetloc "x:22".data)).reverse.takeWhile (· ≠ ':')).reverse) then
          ((toNatDigits (((lowerL (rawNetloc "x:22".data)).reverse.takeWhile (· ≠ ':')).reverse) : ℕ) : ℚ)
        else 0)
      else 0) :=
  ⟨rfl, port_carries_numeric_value.1 "x:22".data _ rfl⟩

/-- C3: `POST /predict` returns 400 with body `\x7b"error": "no url
provided"\x7d` whenever the submitted `url` is empty or absent after
whitespace trimming; and every 200 success response carries a
`prediction` in \x7b0,1\x7d together with a `meaning` that is
`"phishing"` exactly when the prediction is 1 (and `"legitimate"`
otherwise).  The classifier itself is modelled from the spec as an
opaque 0/1-valued function. -/
theorem predict_contract :
    ∀ (st : AppState) (fsMeta : Option Meta) (reqUrl : Option (List Char)),
      ((pyStrip (reqUrl.getD [])).isEmpty = true →
        predict st fsMeta reqUrl = .err 400 "no url provided") ∧
      (∀ s u pr m, predict st fsMeta reqUrl = .success s u pr m →
        s = 200 ∧ (pr = 0 ∨ pr = 1) ∧ (m = "phishing" ↔ pr = 1)) := by
  intro st fsMeta reqUrl
  constructor
  · intro he
    unfold predict
    simp only []
    rw [he]
    rfl
  · intro s u pr m h
    unfold predict at h
    simp only [] at h
    split at h
    · cases h
    · split at h
      · cases h
      · rename_i row hrow
        by_cases hc : st.clf row = true
        · rw [hc] at h
          simp only [if_true] at h
          cases h
          refine ⟨rfl, Or.inr rfl, ?_⟩
          constructor
          · intro _; rfl
          · intro _; rfl
        · rw [Bool.not_eq_true] at hc
          rw [hc] at h
          simp only [Bool.false_eq_true, if_false] at h
          cases h
          refine ⟨rfl, Or.inl rfl, ?_⟩
          constructor
          · intro hm
            exact absurd hm (by decide)
          · intro h1
            exact absurd h1 (by decide)

/-- C3 witness: the 400 branch at a whitespace-only `url`, and the
success branch at `"a"` with an always-phishing classifier. -/
theorem predict_contract_witness :
    ((pyStrip ((Option.some "  ".data).getD [])).isEmpty = true ∧
      predict ⟨⟨["length_url"], []⟩, fun _ => true⟩ (some ⟨["length_url"], []⟩)
        (some "  ".data) = .err 400 "no url provided") ∧
    (predict ⟨⟨["length_url"], []⟩, fun _ => true⟩ (some ⟨["length_url"], []⟩)
        (some "a".data) = .success 200 "a".data 1 "phishing" ∧
      (200 = 200 ∧ ((1 : Nat) = 0 ∨ (1 : Nat) = 1) ∧
        ("phishing" = "phishing" ↔ (1 : Nat) = 1))) :=
  ⟨⟨rfl, (predict_contract ⟨⟨["length_url"], []⟩, fun _ => true⟩
      (some ⟨["length_url"], []⟩) (some "  ".data)).1 rfl⟩,
   ⟨rfl, (predict_contract ⟨⟨["length_url"], []⟩, fun _ => true⟩
      (some ⟨["length_url"], []⟩) (some "a".data)).2 200 "a".data 1 "phishing" rfl⟩⟩

/-- C5 (counterexample): with the same startup state (metadata already
parsed at `app.py:13-16`) and the same URL `"a"`, the `/predict` response
differs between two states of the metadata file at request time — present
(200 success) versus deleted/malformed (500, because
`extract_features_for_model` re-opens the file at line 119 on every call
and raises).  So the prediction result DOES depend on the state of the
metadata file at request time. -/
theorem predict_depends_on_request_time_metadata :
    predict ⟨⟨["length_url"], []⟩, fun _ => true⟩ (some ⟨["length_url"], []⟩)
        (some "a".data) = .success 200 "a".data 1 "phishing" ∧
    predict ⟨⟨["length_url"], []⟩, fun _ => true⟩ none (some "a".data) =
        .err 500 "exception" ∧
    (Resp.success 200 "a".data 1 "phishing") ≠ (Resp.err 500 "exception") :=
  ⟨rfl, rfl, by decide⟩

/-- C5 (amended): what actually holds is the converse dependence — the
handler's result is a function of the metadata file state read at request
time, and does not use the copy parsed at startup at all (two processes
whose startups read different metadata but whose files agree at request
time answer identically). -/
theorem predict_ignores_startup_metadata :
    ∀ (m₁ m₂ : Meta) (clf : ClassifierModel) (fsMeta : Option Meta)
      (reqUrl : Option (List Char)),
      predict ⟨m₁, clf⟩ fsMeta reqUrl = predict ⟨m₂, clf⟩ fsMeta reqUrl := by
  intro m₁ m₂ clf fsMeta reqUrl
  rfl
